import Mathlib

/-!
# Verification of the mcpchecker task-evaluation core

A shallow embedding, in Lean 4, of the task-evaluation orchestration engine of
the mcpchecker repository: the step-output template resolver, the random-value
resolver, step configuration marshalling, phase execution in the task runner,
the eval runner's task discovery filter and per-task failure isolation, the
extension client's shutdown procedure, and the bounded-parallelism scheduler.

Each Go function that a claim depends on is translated into an executable Lean
definition; external collaborators (the regexp engine, the OS process layer,
crypto randomness, the network) are modelled as explicit parameters or oracles
supplied to those definitions.
-/

namespace MCPCheck

/-! ## Step outputs (pkg/steps/step.go)

Go's `map[string]string` values are modelled as association lists and
`map[string]map[string]string` accumulators as functions to `Option`.
-/

/-- A `map[string]string` from Go, as an association list. -/
abbrev KVMap := List (String × String)

/-- The accumulated step-outputs map of a phase:
`map[string]map[string]string`, keyed by step type name. -/
abbrev OutputsAcc := String → Option KVMap

/-- `steps.StepOutput` from pkg/steps/step.go: the result a step reports. -/
structure StepOutput where
  type : String
  success : Bool
  message : String
  outputs : KVMap
  error : String
deriving DecidableEq

/-- The empty accumulated step-outputs map. -/
def emptyAcc : OutputsAcc := fun _ => none

/-! ## Step-output template resolution (StepOutputResolver.Resolve) -/

/-- Splits a character list at its LAST dot: returns the part before the last
dot and the part after it, or `none` when no dot occurs. Mirrors the
backwards byte scan in `StepOutputResolver.Resolve`. -/
def splitLastDot : List Char → Option (List Char × List Char)
  | [] => none
  | c :: rest =>
    match splitLastDot rest with
    | some (st, key) => some (c :: st, key)
    | none => if c = '.' then some ([], rest) else none

/-- `StepOutputResolver.Resolve` from pkg/steps (llm_judge.go): looks up
`outputs[stepType][outputKey]` after splitting `fieldName` on its last dot;
each missing piece is an error. -/
def resolveStepOutput (outputs : OutputsAcc) (fieldName : String) :
    Except String String :=
  match splitLastDot fieldName.toList with
  | none => .error ("invalid field name " ++ fieldName ++
      ": must be in format stepType.outputKey")
  | some (st, key) =>
    let stepType := String.mk st
    let outputKey := String.mk key
    match outputs stepType with
    | none => .error ("step type " ++ stepType ++ " not found in outputs")
    | some m =>
      match m.lookup outputKey with
      | none => .error ("output key " ++ outputKey ++ " not found for step type "
          ++ stepType)
      | some v => .ok v

/-! ## Random-value resolution (RandomResolver.Resolve) -/

/-- The alphabet used for generated ids, from pkg/steps (random.go). -/
def alphanumeric : String := "abcdefghijklmnopqrstuvwxyz0123456789"

/-- `generateRandomID` from pkg/steps (random.go), with the bytes produced by
`crypto/rand.Read` passed in explicitly: each byte is mapped to
`alphanumeric[b % 36]`. -/
def generateRandomID (bytes : List Nat) : String :=
  String.mk (bytes.map (fun b => alphanumeric.toList.getD (b % 36) 'a'))

/-- The environment a single `RandomResolver.Resolve` call draws from: the
bytes `crypto/rand.Read` would return for an id (or `none` on a read error),
and the port `findAvailablePort` would return (or `none` on failure). -/
structure RandomEnv where
  idBytes : Option (List Nat)
  portVal : Option String

/-- The memoization map of a `RandomResolver` (`values` field). -/
abbrev RandomValues := String → Option String

/-- The empty memoization map of a fresh `RandomResolver`. -/
def emptyRandomValues : RandomValues := fun _ => none

/-- `RandomResolver.Resolve` from pkg/steps (random.go), in state-passing
style: consults the memoization map first; otherwise generates a value for
`id` or `port` (as the environment dictates), memoizes it and returns it;
any other field name is an error. -/
def randomResolve (env : RandomEnv) (values : RandomValues) (fieldName : String) :
    Except String (String × RandomValues) :=
  match values fieldName with
  | some v => .ok (v, values)
  | none =>
    if fieldName = "id" then
      match env.idBytes with
      | none => .error "failed to generate random id"
      | some bs =>
        let v := generateRandomID (bs.take 8)
        .ok (v, fun k => if k = fieldName then some v else values k)
    else if fieldName = "port" then
      match env.portVal with
      | none => .error "failed to find available port"
      | some p => .ok (p, fun k => if k = fieldName then some p else values k)
    else
      .error ("unknown random field " ++ fieldName ++
        ": supported fields are id and port")

/-! ## Step configuration marshalling (pkg/steps/step.go, StepConfig) -/

/-- A JSON value as far as `StepConfig` (un)marshalling inspects it: either a
JSON string (what `json.Marshal` of the `ID` field produces and what decoding
the `id` key expects) or some other raw JSON payload kept opaque. -/
inductive Jv where
  | jstr : String → Jv
  | raw : String → Jv
deriving DecidableEq

/-- A JSON object, as the `map[string]json.RawMessage` the Go code works on. -/
abbrev JsonObj := String → Option Jv

/-- `steps.StepConfig`: an optional id plus the remaining single-key payload
map (`Config`). -/
structure StepConfig where
  id : String
  config : String → Option Jv

/-- `StepConfig.MarshalJSON`: copy the payload map, then re-add the `id` key
exactly when `ID` is non-empty. -/
def marshalStepConfig (cfg : StepConfig) : JsonObj :=
  fun k =>
    if cfg.id ≠ "" ∧ k = "id" then some (.jstr cfg.id)
    else cfg.config k

/-- `StepConfig.UnmarshalJSON`: decode the `id` key into the `ID` field (an
absent key leaves it empty; a non-string value is a decoding error), then
strip `id` from the raw map and keep the rest as the payload. -/
def unmarshalStepConfig (obj : JsonObj) : Except String StepConfig :=
  match obj "id" with
  | some (.raw _) => .error "json: cannot unmarshal value into field id of type string"
  | some (.jstr s) => .ok ⟨s, fun k => if k = "id" then none else obj k⟩
  | none => .ok ⟨"", fun k => if k = "id" then none else obj k⟩

/-! ## Phase execution (pkg/task/run.go)

`taskRunner.Setup`, `Verify` and `Cleanup` share one loop shape: execute each
step with the accumulated step-outputs map, append its output, abort on a step
execution error, mark the phase failed on a soft failure, and merge the step's
outputs into the accumulated map when it qualifies. A step's behaviour is a
function from the accumulated map it is shown to the `(output, error)` pair it
produces, so the dependence of later steps on earlier outputs is explicit. -/

/-- The `(res *StepOutput, err error)` pair returned by `StepRunner.Execute`. -/
structure StepResult where
  out : Option StepOutput
  err : Option String

/-- The behaviour of one step: what it returns given the accumulated
step-outputs map it receives in its `StepInput`. -/
abbrev StepBehavior := OutputsAcc → StepResult

/-- `task.PhaseOutput` from pkg/task/run.go (per-phase step list, overall
success flag, phase error). -/
structure PhaseOutput where
  steps : List (Option StepOutput)
  success : Bool
  error : String
deriving DecidableEq

/-- Whether a step output qualifies for merging into the phase's accumulated
map: `res != nil && res.Success && len(res.Outputs) > 0 && res.Type != ""`
(pkg/task/run.go, repeated in Setup, Verify and Cleanup). -/
def qualifies : Option StepOutput → Bool
  | none => false
  | some res => res.success && !res.outputs.isEmpty && !(res.type = "")

/-- Merging one step result into the accumulated step-outputs map:
`stepOutputs[res.Type] = res.Outputs` exactly when the result qualifies. -/
def mergeStep (acc : OutputsAcc) (o : Option StepOutput) : OutputsAcc :=
  match o with
  | none => acc
  | some res =>
    if res.success && !res.outputs.isEmpty && !(res.type = "")
    then fun k => if k = res.type then some res.outputs else acc k
    else acc

/-- `if res != nil && !res.Success` marks the phase failed but continues. -/
def stepOk : Option StepOutput → Bool
  | none => true
  | some res => res.success

/-- The shared phase loop of `taskRunner.Setup` / `Verify` / `Cleanup`
(pkg/task/run.go), with the phase name and step index used to format the
returned error (`<phase>[<i>] failed: <err>`). Returns the `PhaseOutput`,
the final accumulated step-outputs map, and the phase's Go error return. -/
def runPhaseFrom (phase : String) (i : Nat) :
    List StepBehavior → OutputsAcc → PhaseOutput × OutputsAcc × Option String
  | [], acc => (⟨[], true, ""⟩, acc, none)
  | s :: rest, acc =>
    let r := s acc
    match r.err with
    | some e =>
      (⟨[r.out], false, e⟩, acc,
        some (phase ++ "[" ++ toString i ++ "] failed: " ++ e))
    | none =>
      let acc' := mergeStep acc r.out
      let res := runPhaseFrom phase (i + 1) rest acc'
      (⟨r.out :: res.1.steps, stepOk r.out && res.1.success, res.1.error⟩,
        res.2.1, res.2.2)

/-- A phase run from its first step. -/
def runPhase (phase : String) (steps : List StepBehavior) (acc : OutputsAcc) :
    PhaseOutput × OutputsAcc × Option String :=
  runPhaseFrom phase 0 steps acc

/-- The step results actually produced during a phase run: each step's
result under the accumulated map that step was shown, cut off after a step
execution error (the phase loop returns before merging that step). -/
def phaseResults : List StepBehavior → OutputsAcc → List StepResult
  | [], _ => []
  | s :: rest, acc =>
    let r := s acc
    match r.err with
    | some _ => [r]
    | none => r :: phaseResults rest (mergeStep acc r.out)

/-- The last result of a phase run whose outputs were merged under the
step-type key `t`: error-free, qualifying (successful with a non-empty
output set and non-empty type name) and of type `t`; `none` when no such
result exists. -/
def lastMergedFor : List StepResult → String → Option StepOutput
  | [], _ => none
  | r :: rest, t =>
    match r.err with
    | some _ => none
    | none =>
      match lastMergedFor rest t with
      | some o => some o
      | none =>
        match r.out with
        | none => none
        | some o => if qualifies (some o) && (o.type = t) then some o else none

/-! ## Task execution (pkg/eval/runner.go: runTask, setupTaskResources,
executeTaskSteps; pkg/task/run.go: RunAgent) -/

/-- The behaviour of the injected agent runner on this task: either an
execution error or a produced output string. -/
structure AgentBehavior where
  err : Option String
  output : String

/-- Everything environment-determined about one task's execution: the
outcomes of resource construction and the behaviours of its steps/agent. -/
structure TaskEnv where
  newRunnerErr : Option String
  newManagerErr : Option String
  startErr : Option String
  setupSteps : List StepBehavior
  agent : AgentBehavior
  verifySteps : List StepBehavior
  cleanupSteps : List StepBehavior

/-- Task identity fields copied into the result at task start. -/
structure TaskMeta where
  name : String
  path : String
  difficulty : String

/-- `eval.EvalResult`, restricted to the fields the core writes (assertion
results, call history and token accounting are external collaborators). -/
structure EvalResult where
  taskName : String
  taskPath : String
  taskPassed : Bool
  taskOutput : String
  taskError : String
  agentExecutionError : Bool
  difficulty : String
  setupOutput : Option PhaseOutput
  agentOutput : Option PhaseOutput
  verifyOutput : Option PhaseOutput
  cleanupOutput : Option PhaseOutput
deriving DecidableEq

/-- `taskRunner.RunAgent` (pkg/task/run.go): delegates to the agent runner; on
failure produces a failed synthetic agent step embedding the raw error and
returns the wrapped error, on success a single successful agent step carrying
the output. -/
def runAgentPhase (a : AgentBehavior) : PhaseOutput × Option String :=
  match a.err with
  | some e =>
    (⟨[some ⟨"agent", false, "", [("output", e)], "failed to run agent: " ++ e⟩],
      false, "failed to run agent: " ++ e⟩,
      some ("failed to run agent: " ++ e))
  | none =>
    (⟨[some ⟨"agent", true, a.output, [("output", a.output)], ""⟩], true, ""⟩,
      none)

/-- The backwards-compatibility extraction of `Steps[0].Outputs["output"]`
from the agent phase output (pkg/eval/runner.go, executeTaskSteps). -/
def extractOutput (po : PhaseOutput) : Option String :=
  match po.steps with
  | [] => none
  | o :: _ =>
    match o with
    | none => none
    | some s => s.outputs.lookup "output"

/-- `evalRunner.executeTaskSteps` (pkg/eval/runner.go): run the agent, record
its phase output, on agent failure mark the task failed with
`AgentExecutionError`; otherwise run Verify, record its output, and derive
the task's pass/fail and error text. -/
def executeTaskSteps (env : TaskEnv) (result : EvalResult) : EvalResult :=
  let ap := runAgentPhase env.agent
  let r1 := { result with agentOutput := some ap.1,
                          taskOutput := (extractOutput ap.1).getD result.taskOutput }
  match ap.2 with
  | some e =>
    { r1 with taskPassed := false, taskError := e, agentExecutionError := true }
  | none =>
    let v := runPhase "verify" env.verifySteps emptyAcc
    let r3 := { r1 with verifyOutput := some v.1 }
    match v.2.2 with
    | some e => { r3 with taskPassed := false,
                          taskError := "verification failed: " ++ e }
    | none =>
      if v.1.success then { r3 with taskPassed := true }
      else { r3 with taskPassed := false,
                     taskError := "one or more verification steps failed" }

/-- `evalRunner.runTask` (pkg/eval/runner.go): create the task's resources
(`setupTaskResources`); any resource or Setup error makes the task fail with
that error, without running the remaining phases and without aborting the
batch; otherwise run agent and verify steps, and finally (via the deferred
cleanup closure) the Cleanup phase seeded with Setup's accumulated outputs.
The Go function returns a nil error on every path, so the embedding returns
the `EvalResult` alone. -/
def runTask (meta : TaskMeta) (env : TaskEnv) : EvalResult :=
  let base : EvalResult :=
    ⟨meta.name, meta.path, false, "", "", false, meta.difficulty,
      none, none, none, none⟩
  match env.newRunnerErr with
  | some e =>
    { base with taskError := "failed to create task runner for task " ++
        meta.name ++ ": " ++ e }
  | none =>
  match env.newManagerErr with
  | some e =>
    { base with taskError := "failed to create mcp proxy server manager: " ++ e }
  | none =>
  match env.startErr with
  | some e =>
    { base with taskError := "failed to start mcp proxy servers: " ++ e }
  | none =>
    let s := runPhase "setup" env.setupSteps emptyAcc
    match s.2.2 with
    | some e =>
      { base with setupOutput := some s.1,
                  taskError := "failed to setup task: " ++ e }
    | none =>
      let afterSteps := executeTaskSteps env { base with setupOutput := some s.1 }
      let c := runPhase "cleanup" env.cleanupSteps s.2.1
      { afterSteps with cleanupOutput := some c.1 }

/-- The task loop of `evalRunner.RunWithProgress` (pkg/eval/runner.go): each
task is run in discovery order and its result appended; since `runTask`
returns a nil error on every path, no result is ever skipped. -/
def runBatch (tasks : List (TaskMeta × TaskEnv)) : List EvalResult :=
  tasks.map (fun p => runTask p.1 p.2)

/-! ## Task discovery and filtering (pkg/eval/runner.go:
RunWithProgress pattern normalization, collectTaskConfigs) -/

/-- The identity of a parsed task file: metadata name and labels. -/
structure TaskFileMeta where
  name : String
  labels : List (String × String)
deriving DecidableEq

/-- The outcome of `task.FromFile` on one candidate path: a parsed task, a
file of a different kind (`util.ErrWrongKind`, silently skipped), or any
other parse error (aborts the whole collection). -/
inductive FileEntry where
  | task : TaskFileMeta → FileEntry
  | wrongKind : FileEntry
  | badParse : String → FileEntry
deriving DecidableEq

/-- One task set: the parse outcomes of its globbed/explicit paths in order,
and its label selector. -/
structure TaskSetModel where
  files : List FileEntry
  selector : List (String × String)
deriving DecidableEq

/-- Modelled from the spec: `matchesLabelSelector` is called by
`collectTaskConfigs` but its definition is not among the provided sources.
Per the spec, a selector matches iff every key/value pair in the task-set's
label selector is present with an equal value in the task's labels (AND
semantics; absent labels never match a non-empty selector). -/
def matchesLabelSelector (labels selector : List (String × String)) : Bool :=
  selector.all (fun kv => labels.lookup kv.1 = some kv.2)

/-- The per-task-set path loop of `collectTaskConfigs`: skip wrong-kind
files, fail on any other parse error, keep tasks whose name the compiled
matcher accepts and whose labels satisfy the selector, in path order. -/
def collectFromFiles (m : String → Bool) (sel : List (String × String)) :
    List FileEntry → Except String (List TaskFileMeta)
  | [] => .ok []
  | .badParse e :: _ => .error ("failed to load task: " ++ e)
  | .wrongKind :: rest => collectFromFiles m sel rest
  | .task t :: rest =>
    match collectFromFiles m sel rest with
    | .error e => .error e
    | .ok l =>
      if m t.name && matchesLabelSelector t.labels sel then .ok (t :: l)
      else .ok l

/-- `evalRunner.collectTaskConfigs`: the task-set loop, appending each
set's surviving tasks in order. -/
def collectTaskConfigs (m : String → Bool) :
    List TaskSetModel → Except String (List TaskFileMeta)
  | [] => .ok []
  | ts :: rest =>
    match collectFromFiles m ts.selector ts.files with
    | .error e => .error e
    | .ok l =>
      match collectTaskConfigs m rest with
      | .error e => .error e
      | .ok l2 => .ok (l ++ l2)

/-- `RunWithProgress`: an empty task pattern is replaced by the pattern "."
before compilation. -/
def effectivePattern (p : String) : String := if p = "" then "." else p

/-- Modelled from Go's regexp package (an external collaborator): the
unanchored pattern "." matches a string iff the string contains at least one
character other than a newline (`.` never matches a newline and
`MatchString` looks for a match anywhere in the string). -/
def dotMatch (s : String) : Bool := s.toList.any (fun c => !(c = '\n'))

/-- Task discovery as `RunWithProgress` performs it: normalize the pattern,
compile it with the regexp engine (passed in as `compile`), and collect the
matching tasks. -/
def discoverTasks (compile : String → (String → Bool)) (pattern : String)
    (tsets : List TaskSetModel) : Except String (List TaskFileMeta) :=
  collectTaskConfigs (compile (effectivePattern pattern)) tsets

/-! ## Extension client shutdown (pkg/extension/client/client.go) -/

/-- The environment-determined outcomes `client.Shutdown` reacts to: the
result of the `shutdown` RPC issued under the derived 5-second context, the
result of `Process.Kill` where reached, the result of `cmd.Wait`, and which
side of the select race fires first (the caller's context or the process
exit). Error values are `Option String` with `none` for a nil Go error. -/
structure ShutdownEnv where
  rpcErr : Option String
  killErr : Option String
  waitErr : Option String
  ctxDoneFirst : Bool
  ctxErr : String

/-- `errors.Join`: the non-nil causes in order; the empty list is Go's nil
joined error. -/
def joinErrors (es : List (Option String)) : List String := es.filterMap id

/-- `client.Shutdown` (pkg/extension/client/client.go): if the RPC fails
(including its 5-second timeout) the process is killed and reaped
immediately and the joined error holds the RPC error and any kill error;
on RPC success the process-exit wait races the caller's context: if the
context fires first the process is killed, the pending wait drained, and
the joined error holds the context error, any kill error and any wait
error; otherwise `Shutdown` returns whatever `cmd.Wait` returned (nil on a
clean exit). -/
def shutdown (env : ShutdownEnv) : List String :=
  match env.rpcErr with
  | some e => joinErrors [some e, env.killErr]
  | none =>
    if env.ctxDoneFirst then
      joinErrors [some env.ctxErr, env.killErr, env.waitErr]
    else
      joinErrors [env.waitErr]

/-! ## Bounded-parallelism scheduling (spec-modelled)

The repository's `NewRunnerWithParallelism` and the worker-pool variant of
`RunWithProgress` are exercised by pkg/eval tests and called from
pkg/cli/run.go, but their definitions are not among the provided sources;
they are modelled here from the spec. -/

/-- Modelled from the spec: parallelism normalization of
`NewRunnerWithParallelism` — a parallelism of zero or below defaults to 1
(asserted by its unit tests). -/
def normalizeParallelism (p : Int) : Nat := if p ≤ 0 then 1 else p.toNat

/-- The four phases of one task, in their fixed order. -/
inductive TaskPhase where
  | setupPhase
  | runningPhase
  | verifyingPhase
  | cleanupPhase
deriving DecidableEq

/-- The successor of a phase in a task's fixed four-phase sequence. -/
def TaskPhase.next : TaskPhase → Option TaskPhase
  | .setupPhase => some .runningPhase
  | .runningPhase => some .verifyingPhase
  | .verifyingPhase => some .cleanupPhase
  | .cleanupPhase => none

/-- A scheduler state: task indices not yet started, tasks currently holding
a worker slot together with their current phase, and finished tasks. -/
structure SchedState where
  pending : List Nat
  active : List (Nat × TaskPhase)
  finished : List Nat

/-- Modelled from the spec: one transition of the worker-pool scheduler. A
task may start only when fewer than `cap` tasks hold a slot (the counting
semaphore of size `cap`); an active task advances through its four phases
strictly one at a time; a task in its last phase may finish, releasing its
slot. -/
inductive SchedStep (cap : Nat) : SchedState → SchedState → Prop where
  | start (i : Nat) (rest : List Nat) (act : List (Nat × TaskPhase))
      (fin : List Nat) :
      act.length < cap →
      SchedStep cap ⟨i :: rest, act, fin⟩ ⟨rest, (i, .setupPhase) :: act, fin⟩
  | advance (pre post : List (Nat × TaskPhase)) (i : Nat) (ph ph' : TaskPhase)
      (pend fin : List Nat) :
      ph.next = some ph' →
      SchedStep cap ⟨pend, pre ++ (i, ph) :: post, fin⟩
        ⟨pend, pre ++ (i, ph') :: post, fin⟩
  | finish (pre post : List (Nat × TaskPhase)) (i : Nat) (pend fin : List Nat) :
      SchedStep cap ⟨pend, pre ++ (i, .cleanupPhase) :: post, fin⟩
        ⟨pend, pre ++ post, i :: fin⟩

/-- The states the scheduler can reach from `n` discovered tasks, none
started. -/
inductive SchedReachable (cap n : Nat) : SchedState → Prop where
  | init : SchedReachable cap n ⟨List.range n, [], []⟩
  | step {s s' : SchedState} :
      SchedReachable cap n s → SchedStep cap s s' → SchedReachable cap n s'

/-- Modelled from the spec: one worker completing task `i` writes that
task's result into the slot indexed by the task's discovery position. -/
def writeSlot (tasks : List (TaskMeta × TaskEnv))
    (slots : List (Option EvalResult)) (i : Nat) : List (Option EvalResult) :=
  match tasks[i]? with
  | some p => slots.set i (some (runTask p.1 p.2))
  | none => slots

/-- Modelled from the spec: the order-preserving result assembly of the
worker-pool `RunWithProgress` — each worker writes its task's result into
the slot indexed by the task's discovery position, in whatever order the
workers complete; the slice is returned after all workers finish. -/
def runParallel (tasks : List (TaskMeta × TaskEnv)) (completionOrder : List Nat) :
    List (Option EvalResult) :=
  completionOrder.foldl (writeSlot tasks) (List.replicate tasks.length none)

/-! ## Helper lemmas -/

theorem splitLastDot_eq_none {cs : List Char} (h : '.' ∉ cs) :
    splitLastDot cs = none := by
  induction cs with
  | nil => rfl
  | cons c rest ih =>
    have hc : ¬ c = '.' := fun hc => h (hc ▸ List.mem_cons_self c rest)
    have hr : '.' ∉ rest := fun hr => h (List.mem_cons_of_mem c hr)
    simp [splitLastDot, ih hr, hc]

theorem splitLastDot_append (xs ys : List Char) (h : '.' ∉ ys) :
    splitLastDot (xs ++ '.' :: ys) = some (xs, ys) := by
  induction xs with
  | nil => simp [splitLastDot, splitLastDot_eq_none h]
  | cons x xs ih => simp [splitLastDot, ih]

theorem append_ne_empty_left (a b : String) (h : a ≠ "") : a ++ b ≠ "" := by
  intro hc
  apply h
  have hdata : a.data ++ b.data = [] := by
    have := congrArg String.data hc
    simpa [String.data_append] using this
  have ha : a.data = [] := (List.append_eq_nil.mp hdata).1
  cases a with
  | mk d =>
    simp only [String.data] at ha
    subst ha
    rfl

/-! ## C6: step-output template resolution -/

/-- Claim C6: resolving a template reference `steps.<stepType>.<outputKey>`
splits the field name on its last dot — so `stepType` may itself contain
dots — and looks up `outputs[stepType][outputKey]`; a field name with no dot
at all, an absent step type, or an absent output key each yield an error
rather than a silent pass-through. -/
theorem resolveStepOutput_spec (outputs : OutputsAcc) (fieldName : String) :
    (('.' ∉ fieldName.toList) → ∃ e, resolveStepOutput outputs fieldName = .error e)
    ∧ (∀ st key : String,
        fieldName.toList = st.toList ++ '.' :: key.toList → '.' ∉ key.toList →
        (∀ m v, outputs st = some m → m.lookup key = some v →
            resolveStepOutput outputs fieldName = .ok v)
        ∧ (outputs st = none → ∃ e, resolveStepOutput outputs fieldName = .error e)
        ∧ (∀ m, outputs st = some m → m.lookup key = none →
            ∃ e, resolveStepOutput outputs fieldName = .error e)) := by
  constructor
  · intro h
    refine ⟨"invalid field name " ++ fieldName ++
      ": must be in format stepType.outputKey", ?_⟩
    unfold resolveStepOutput
    rw [splitLastDot_eq_none h]
  · intro st key hsplit hkey
    have hmk₁ : String.mk st.toList = st := rfl
    have hmk₂ : String.mk key.toList = key := rfl
    have hs : splitLastDot fieldName.toList = some (st.toList, key.toList) := by
      rw [hsplit]; exact splitLastDot_append _ _ hkey
    refine ⟨?_, ?_, ?_⟩
    · intro m v hm hv
      unfold resolveStepOutput
      rw [hs]
      simp [hmk₁, hmk₂, hm, hv]
    · intro hm
      refine ⟨"step type " ++ st ++ " not found in outputs", ?_⟩
      unfold resolveStepOutput
      rw [hs]
      simp [hmk₁, hmk₂, hm]
    · intro m hm hv
      refine ⟨"output key " ++ key ++ " not found for step type " ++ st, ?_⟩
      unfold resolveStepOutput
      rw [hs]
      simp [hmk₁, hmk₂, hm, hv]

/-- Witness for C6 at the test-suite example: with outputs
`kubernetes.listContexts ↦ (current ↦ kind-kind, count ↦ 3)`, resolving
`kubernetes.listContexts.current` yields `kind-kind`. -/
theorem resolveStepOutput_spec_witness :
    resolveStepOutput
      (fun k => if k = "kubernetes.listContexts" then
          some [("current", "kind-kind"), ("count", "3")] else none)
      "kubernetes.listContexts.current" = .ok "kind-kind" := by
  have h := (resolveStepOutput_spec
      (fun k => if k = "kubernetes.listContexts" then
          some [("current", "kind-kind"), ("count", "3")] else none)
      "kubernetes.listContexts.current").2
      "kubernetes.listContexts" "current" (by decide) (by decide)
  exact h.1 [("current", "kind-kind"), ("count", "3")] "kind-kind" (by simp) (by decide)

/-! ## C9: random-value memoization -/

/-- Claim C9: on a single RandomResolver, a successful resolution is
memoized — any later call for the same field returns the identical value
(regardless of the later call's environment), for `id` and `port` alike; a
fresh resolution of `id` yields an 8-character string over lowercase letters
and digits; and any field other than `id` or `port` resolves to an error. -/
theorem randomResolve_spec :
    (∀ (env env' : RandomEnv) (values : RandomValues) (f v : String)
        (values' : RandomValues),
        randomResolve env values f = .ok (v, values') →
        randomResolve env' values' f = .ok (v, values'))
    ∧ (∀ (env : RandomEnv) (bs : List Nat), env.idBytes = some bs →
        bs.length = 8 →
        ∃ values', randomResolve env emptyRandomValues "id" =
            .ok (generateRandomID bs, values')
          ∧ (generateRandomID bs).length = 8
          ∧ ∀ c ∈ (generateRandomID bs).toList, c ∈ alphanumeric.toList)
    ∧ (∀ (env : RandomEnv) (f : String), f ≠ "id" → f ≠ "port" →
        ∃ e, randomResolve env emptyRandomValues f = .error e) := by
  refine ⟨?_, ?_, ?_⟩
  · intro env env' values f v values' h
    unfold randomResolve at h ⊢
    cases hv : values f with
    | some w =>
      rw [hv] at h
      simp only [Except.ok.injEq, Prod.mk.injEq] at h
      obtain ⟨hvw, hval⟩ := h
      subst hvw
      subst hval
      rw [hv]
    | none =>
      rw [hv] at h
      by_cases hf : f = "id"
      · subst hf
        rw [if_pos rfl] at h
        cases hb : env.idBytes with
        | none => rw [hb] at h; exact absurd h (by simp)
        | some bs2 =>
          rw [hb] at h
          simp only [Except.ok.injEq, Prod.mk.injEq] at h
          obtain ⟨hvw, hval⟩ := h
          have hv' : values' "id" = some v := by
            rw [← hval, ← hvw]; simp
          rw [hv']
      · by_cases hp : f = "port"
        · subst hp
          rw [if_neg hf, if_pos rfl] at h
          cases hb : env.portVal with
          | none => rw [hb] at h; exact absurd h (by simp)
          | some p =>
            rw [hb] at h
            simp only [Except.ok.injEq, Prod.mk.injEq] at h
            obtain ⟨hvw, hval⟩ := h
            have hv' : values' "port" = some v := by
              rw [← hval, ← hvw]; simp
            rw [hv']
        · rw [if_neg hf, if_neg hp] at h
          exact absurd h (by simp)
  · intro env bs hbs hlen
    have htake : bs.take 8 = bs := by
      rw [← hlen]; exact List.take_length bs
    refine ⟨fun k => if k = "id" then some (generateRandomID bs)
        else emptyRandomValues k, ?_, ?_, ?_⟩
    · unfold randomResolve
      rw [show emptyRandomValues "id" = none from rfl, hbs]
      conv_rhs => rw [← htake]
      rfl
    · have hl : (generateRandomID bs).length =
          (bs.map (fun b => alphanumeric.toList.getD (b % 36) 'a')).length := rfl
      rw [hl, List.length_map, hlen]
    · intro c hc
      have hmk : (generateRandomID bs).toList =
          bs.map (fun b => alphanumeric.toList.getD (b % 36) 'a') := rfl
      rw [hmk, List.mem_map] at hc
      obtain ⟨b, _, rfl⟩ := hc
      have hlt : b % 36 < alphanumeric.toList.length :=
        lt_of_lt_of_le (Nat.mod_lt b (by norm_num)) (by decide)
      rw [List.getD_eq_getElem _ _ hlt]
      exact List.getElem_mem hlt
  · intro env f h1 h2
    refine ⟨"unknown random field " ++ f ++
      ": supported fields are id and port", ?_⟩
    unfold randomResolve
    simp [emptyRandomValues, h1, h2]

/-- Witness for C9: a resolver whose first `id` resolution drew the bytes
0..7 returns `abcdefgh`; a second resolution on the resulting state returns
the identical memoized value and state even when the environment can no
longer generate anything. -/
theorem randomResolve_spec_witness :
    randomResolve ⟨none, none⟩
      (fun k => if k = "id" then some "abcdefgh" else emptyRandomValues k) "id" =
    .ok ("abcdefgh",
      fun k => if k = "id" then some "abcdefgh" else emptyRandomValues k) := by
  have h1 : randomResolve ⟨some [0, 1, 2, 3, 4, 5, 6, 7], none⟩
      emptyRandomValues "id" =
      .ok ("abcdefgh",
        fun k => if k = "id" then some "abcdefgh" else emptyRandomValues k) := by
    rfl
  exact randomResolve_spec.1 ⟨some [0, 1, 2, 3, 4, 5, 6, 7], none⟩ ⟨none, none⟩
    emptyRandomValues "id" "abcdefgh" _ h1

/-! ## C10: step configuration round-trip -/

/-- Claim C10: for every StepConfig consisting of an optional id and a single
step-type payload key, marshalling then unmarshalling reproduces an identical
structure; marshalling re-adds the `id` key to the payload exactly when the
ID is non-empty, leaves every other key untouched, and unmarshalling strips
the `id` key from the generic payload map. -/
theorem stepConfig_roundtrip (cfg : StepConfig) (k : String) (v : Jv)
    (hk : k ≠ "id")
    (hcfg : cfg.config = fun s => if s = k then some v else none) :
    unmarshalStepConfig (marshalStepConfig cfg) = .ok cfg
    ∧ marshalStepConfig cfg "id" =
        (if cfg.id = "" then none else some (.jstr cfg.id))
    ∧ (∀ s, s ≠ "id" → marshalStepConfig cfg s = cfg.config s)
    ∧ (∀ obj c, unmarshalStepConfig obj = .ok c → c.config "id" = none) := by
  have hki : ¬ ("id" = k) := fun h => hk h.symm
  obtain ⟨cid, cconf⟩ := cfg
  simp only at hcfg
  subst hcfg
  refine ⟨?_, ?_, ?_, ?_⟩
  · by_cases hid : cid = ""
    · subst hid
      have hm : marshalStepConfig
          ⟨"", fun s => if s = k then some v else none⟩ "id" = none := by
        unfold marshalStepConfig
        simp [hki]
      unfold unmarshalStepConfig
      rw [hm]
      refine congrArg Except.ok ?_
      simp only [StepConfig.mk.injEq, true_and]
      funext s
      by_cases hs : s = "id"
      · subst hs
        simp [hki]
      · rw [if_neg hs]
        unfold marshalStepConfig
        simp
    · have hm : marshalStepConfig
          ⟨cid, fun s => if s = k then some v else none⟩ "id" =
          some (.jstr cid) := by
        unfold marshalStepConfig
        simp [hid]
      unfold unmarshalStepConfig
      rw [hm]
      refine congrArg Except.ok ?_
      simp only [StepConfig.mk.injEq, true_and]
      funext s
      by_cases hs : s = "id"
      · subst hs
        simp [hki]
      · rw [if_neg hs]
        unfold marshalStepConfig
        simp [hs]
  · unfold marshalStepConfig
    by_cases hid : cid = ""
    · subst hid
      simp [hki]
    · simp [hid]
  · intro s hs
    unfold marshalStepConfig
    simp [hs]
  · intro obj c h
    unfold unmarshalStepConfig at h
    cases ho : obj "id" with
    | none =>
      rw [ho] at h
      simp only [Except.ok.injEq] at h
      rw [← h]
      simp
    | some jv =>
      cases jv with
      | jstr s =>
        rw [ho] at h
        simp only [Except.ok.injEq] at h
        rw [← h]
        simp
      | raw r =>
        rw [ho] at h
        exact absurd h (by simp)

/-- Witness for C10 at the spec's example shape: the config
`id = setup_0` with a single `script` payload key round-trips identically. -/
theorem stepConfig_roundtrip_witness :
    unmarshalStepConfig (marshalStepConfig
      ⟨"setup_0", fun s => if s = "script" then some (.raw "inline payload") else none⟩) =
    .ok ⟨"setup_0", fun s => if s = "script" then some (.raw "inline payload") else none⟩ :=
  (stepConfig_roundtrip
    ⟨"setup_0", fun s => if s = "script" then some (.raw "inline payload") else none⟩
    "script" (.raw "inline payload") (by decide) rfl).1

/-! ## C5: extension client shutdown -/

/-- Claim C5: if the shutdown RPC succeeds and the process exits before the
caller's context expires, Shutdown returns nil on a clean exit; if the
caller's context expires first, the process is killed, the pending wait
drained, and the joined error contains the context error (plus any kill and
wait errors); if the RPC fails — including its fixed 5-second timeout — the
process is killed and reaped immediately and the joined error contains the
RPC error and any kill error. -/
theorem shutdown_spec (env : ShutdownEnv) :
    (env.rpcErr = none → env.ctxDoneFirst = false → env.waitErr = none →
        shutdown env = [])
    ∧ (env.rpcErr = none → env.ctxDoneFirst = true →
        env.ctxErr ∈ shutdown env
        ∧ (∀ kerr, env.killErr = some kerr → kerr ∈ shutdown env)
        ∧ (∀ werr, env.waitErr = some werr → werr ∈ shutdown env))
    ∧ (∀ rerr, env.rpcErr = some rerr →
        rerr ∈ shutdown env
        ∧ (∀ kerr, env.killErr = some kerr → kerr ∈ shutdown env)) := by
  refine ⟨?_, ?_, ?_⟩
  · intro h1 h2 h3
    simp [shutdown, joinErrors, h1, h2, h3]
  · intro h1 h2
    refine ⟨?_, ?_, ?_⟩
    · simp [shutdown, joinErrors, h1, h2]
    · intro kerr hk
      simp [shutdown, joinErrors, h1, h2, hk]
    · intro werr hw
      cases hk : env.killErr <;>
        simp [shutdown, joinErrors, h1, h2, hk, hw]
  · intro rerr hr
    refine ⟨?_, ?_⟩
    · cases hk : env.killErr <;>
        simp [shutdown, joinErrors, hr, hk]
    · intro kerr hk
      simp [shutdown, joinErrors, hr, hk]

/-- Witness for C5: a clean shutdown returns nil; an unresponsive process
whose caller context fires first yields a joined error containing the
context error; a failed RPC yields a joined error containing the RPC
error. -/
theorem shutdown_spec_witness :
    shutdown ⟨none, none, none, false, "context deadline exceeded"⟩ = []
    ∧ "context deadline exceeded" ∈
        shutdown ⟨none, some "kill failed", none, true, "context deadline exceeded"⟩
    ∧ "rpc timeout" ∈
        shutdown ⟨some "rpc timeout", some "kill failed", none, false, "ctx"⟩ :=
  ⟨(shutdown_spec ⟨none, none, none, false, "context deadline exceeded"⟩).1
      rfl rfl rfl,
    ((shutdown_spec
      ⟨none, some "kill failed", none, true, "context deadline exceeded"⟩).2.1
      rfl rfl).1,
    ((shutdown_spec
      ⟨some "rpc timeout", some "kill failed", none, false, "ctx"⟩).2.2
      "rpc timeout" rfl).1⟩

/-! ## C8: step-output accumulation -/

theorem runPhaseFrom_acc_eq (ph : String) (steps : List StepBehavior) :
    ∀ (i : Nat) (acc : OutputsAcc) (t : String),
    (runPhaseFrom ph i steps acc).2.1 t =
      (match lastMergedFor (phaseResults steps acc) t with
       | some o => some o.outputs
       | none => acc t) := by
  induction steps with
  | nil => intro i acc t; rfl
  | cons s rest ih =>
    intro i acc t
    unfold runPhaseFrom phaseResults
    cases hr : (s acc).err with
    | some e => simp [hr, lastMergedFor]
    | none =>
      simp only [hr]
      rw [ih]
      simp only [lastMergedFor, hr]
      cases hl : lastMergedFor (phaseResults rest (mergeStep acc (s acc).out)) t with
      | some o => simp
      | none =>
        simp only []
        cases ho : (s acc).out with
        | none => simp [mergeStep, ho]
        | some o =>
          simp only [mergeStep, ho, qualifies]
          by_cases hq : (o.success && !o.outputs.isEmpty && !(o.type = "")) = true
          · by_cases ht : o.type = t
            · simp only [hq, ht]
              split <;> simp_all
            · simp [hq, ht, show ¬ t = o.type from fun h => ht h.symm]
          · rw [Bool.not_eq_true] at hq
            simp [hq]

/-- Counterexample for C8 as stated: a step that succeeded and declared a
non-empty output set, but whose `Type` field is empty, is NOT merged into
the phase's accumulated step-outputs map — the accumulated map is left
untouched (here: still empty), where the claim's "exactly when the step
succeeded and declared a non-empty output set" demands an entry. -/
theorem stepOutputs_merge_counterexample :
    (runPhase "setup"
        [fun _ => ⟨some ⟨"", true, "", [("k", "v")], ""⟩, none⟩] emptyAcc).2.1
      = emptyAcc
    ∧ (⟨"", true, "", [("k", "v")], ""⟩ : StepOutput).success = true
    ∧ (⟨"", true, "", [("k", "v")], ""⟩ : StepOutput).outputs ≠ [] :=
  ⟨rfl, rfl, by decide⟩

/-- Claim C8 (amended): in every phase, the accumulated step-outputs map
holds, under each step-type key, exactly the outputs of the most recent
error-free step that succeeded, declared a non-empty output set AND carries
a non-empty step-type name; results of all other steps — including
successful non-empty-output steps with an empty type name — leave the map
unchanged; steps after a step execution error never merge (the phase
aborts). -/
theorem stepOutputs_merge_spec (ph : String) (steps : List StepBehavior)
    (acc : OutputsAcc) (t : String) :
    (runPhase ph steps acc).2.1 t =
      (match lastMergedFor (phaseResults steps acc) t with
       | some o => some o.outputs
       | none => acc t) :=
  runPhaseFrom_acc_eq ph steps 0 acc t

/-! ## C4: cleanup always runs, seeded with setup outputs -/

theorem executeTaskSteps_congr (e1 e2 : TaskEnv) (r : EvalResult)
    (hA : e1.agent = e2.agent) (hV : e1.verifySteps = e2.verifySteps) :
    executeTaskSteps e1 r = executeTaskSteps e2 r := by
  unfold executeTaskSteps
  rw [hA, hV]

/-- Claim C4: whenever the Setup phase succeeds (resources created and no
setup step execution error), the Cleanup phase executes no matter how the
agent or Verify phases behave, and its steps are run against Setup's
accumulated step-outputs map as their initial StepInput outputs; moreover
the task's pass/fail outcome is unchanged under any replacement of the
cleanup steps, so a cleanup failure never flips it. -/
theorem cleanup_always_runs (m : TaskMeta) (env : TaskEnv)
    (h1 : env.newRunnerErr = none) (h2 : env.newManagerErr = none)
    (h3 : env.startErr = none)
    (h4 : (runPhase "setup" env.setupSteps emptyAcc).2.2 = none) :
    (runTask m env).cleanupOutput =
      some (runPhase "cleanup" env.cleanupSteps
        (runPhase "setup" env.setupSteps emptyAcc).2.1).1
    ∧ ∀ cs : List StepBehavior,
        (runTask m { env with cleanupSteps := cs }).taskPassed =
          (runTask m env).taskPassed := by
  constructor
  · simp [runTask, h1, h2, h3, h4]
  · intro cs
    simp only [runTask, h1, h2, h3, h4]
    exact congrArg EvalResult.taskPassed
      (executeTaskSteps_congr
        ⟨none, none, none, env.setupSteps, env.agent, env.verifySteps, cs⟩
        env _ rfl rfl)

/-- Witness for C4: a task whose setup produces an output map and whose
agent fails still records the cleanup phase output, computed from setup's
accumulated outputs. -/
theorem cleanup_always_runs_witness :
    (runTask ⟨"t1", "tasks/t1.yaml", "easy"⟩
      ⟨none, none, none,
        [fun _ => ⟨some ⟨"script", true, "ok", [("ns", "ns-abc")], ""⟩, none⟩],
        ⟨some "agent exploded", ""⟩,
        [], [fun _ => ⟨some ⟨"cleanup", true, "", [], ""⟩, none⟩]⟩).cleanupOutput =
    some (runPhase "cleanup"
      [fun _ => ⟨some ⟨"cleanup", true, "", [], ""⟩, none⟩]
      (runPhase "setup"
        [fun _ => ⟨some ⟨"script", true, "ok", [("ns", "ns-abc")], ""⟩, none⟩]
        emptyAcc).2.1).1 :=
  (cleanup_always_runs ⟨"t1", "tasks/t1.yaml", "easy"⟩
    ⟨none, none, none,
      [fun _ => ⟨some ⟨"script", true, "ok", [("ns", "ns-abc")], ""⟩, none⟩],
      ⟨some "agent exploded", ""⟩,
      [], [fun _ => ⟨some ⟨"cleanup", true, "", [], ""⟩, none⟩]⟩
    rfl rfl rfl rfl).1

/-! ## C2: per-task failure isolation -/

/-- Claim C2: a task whose runtime execution fails — resource construction,
a setup step execution error, an agent execution error, a verify step
execution error, or a failed verification — never aborts the batch: the
batch still returns one result per task in order, including that task's own
EvalResult, which carries TaskPassed = false and a non-empty explanatory
TaskError. -/
theorem task_failure_isolated (tasks : List (TaskMeta × TaskEnv)) (i : Nat)
    (m : TaskMeta) (env : TaskEnv) (hi : tasks[i]? = some (m, env))
    (hfail :
      env.newRunnerErr ≠ none ∨ env.newManagerErr ≠ none ∨ env.startErr ≠ none
      ∨ (runPhase "setup" env.setupSteps emptyAcc).2.2 ≠ none
      ∨ env.agent.err ≠ none
      ∨ (runPhase "verify" env.verifySteps emptyAcc).2.2 ≠ none
      ∨ (runPhase "verify" env.verifySteps emptyAcc).1.success = false) :
    (runBatch tasks).length = tasks.length
    ∧ (runBatch tasks)[i]? = some (runTask m env)
    ∧ (runTask m env).taskPassed = false
    ∧ (runTask m env).taskError ≠ "" := by
  refine ⟨by simp [runBatch], by simp [runBatch, hi], ?_⟩
  cases h1 : env.newRunnerErr with
  | some e =>
    constructor
    · simp [runTask, h1]
    · simp only [runTask, h1]
      exact append_ne_empty_left _ _ (append_ne_empty_left _ _
        (append_ne_empty_left _ _ (by decide)))
  | none =>
  cases h2 : env.newManagerErr with
  | some e =>
    constructor
    · simp [runTask, h1, h2]
    · simp only [runTask, h1, h2]
      exact append_ne_empty_left _ _ (by decide)
  | none =>
  cases h3 : env.startErr with
  | some e =>
    constructor
    · simp [runTask, h1, h2, h3]
    · simp only [runTask, h1, h2, h3]
      exact append_ne_empty_left _ _ (by decide)
  | none =>
  cases hs : (runPhase "setup" env.setupSteps emptyAcc).2.2 with
  | some e =>
    constructor
    · simp [runTask, h1, h2, h3, hs]
    · simp only [runTask, h1, h2, h3, hs]
      exact append_ne_empty_left _ _ (by decide)
  | none =>
  cases ha : env.agent.err with
  | some e =>
    constructor
    · simp [runTask, executeTaskSteps, runAgentPhase, h1, h2, h3, hs, ha]
    · simp only [runTask, executeTaskSteps, runAgentPhase, h1, h2, h3, hs, ha]
      exact append_ne_empty_left _ _ (by decide)
  | none =>
  cases hv : (runPhase "verify" env.verifySteps emptyAcc).2.2 with
  | some e =>
    constructor
    · simp [runTask, executeTaskSteps, runAgentPhase, h1, h2, h3, hs, ha, hv]
    · simp only [runTask, executeTaskSteps, runAgentPhase, h1, h2, h3, hs, ha, hv]
      exact append_ne_empty_left _ _ (by decide)
  | none =>
    have hvs : (runPhase "verify" env.verifySteps emptyAcc).1.success = false := by
      rcases hfail with h | h | h | h | h | h | h <;> simp_all
    constructor
    · simp [runTask, executeTaskSteps, runAgentPhase, h1, h2, h3, hs, ha, hv, hvs]
    · simp only [runTask, executeTaskSteps, runAgentPhase, h1, h2, h3, hs, ha, hv, hvs]
      simp

/-- Witness for C2: a one-task batch whose task's agent fails still returns
that task's result, failed with a non-empty error. -/
theorem task_failure_isolated_witness :
    (runBatch [(⟨"t1", "tasks/t1.yaml", "easy"⟩,
        ⟨none, none, none, [], ⟨some "agent exploded", ""⟩, [], []⟩)]).length = 1
    ∧ (runBatch [(⟨"t1", "tasks/t1.yaml", "easy"⟩,
        ⟨none, none, none, [], ⟨some "agent exploded", ""⟩, [], []⟩)])[0]? =
        some (runTask ⟨"t1", "tasks/t1.yaml", "easy"⟩
          ⟨none, none, none, [], ⟨some "agent exploded", ""⟩, [], []⟩)
    ∧ (runTask ⟨"t1", "tasks/t1.yaml", "easy"⟩
        ⟨none, none, none, [], ⟨some "agent exploded", ""⟩, [], []⟩).taskPassed = false
    ∧ (runTask ⟨"t1", "tasks/t1.yaml", "easy"⟩
        ⟨none, none, none, [], ⟨some "agent exploded", ""⟩, [], []⟩).taskError ≠ "" :=
  task_failure_isolated _ 0 _ _ rfl
    (Or.inr (Or.inr (Or.inr (Or.inr (Or.inl (by decide))))))

/-! ## C7: task discovery filtering -/

theorem mem_collectFromFiles (m : String → Bool) (sel : List (String × String)) :
    ∀ (files : List FileEntry) (l : List TaskFileMeta),
    collectFromFiles m sel files = .ok l → ∀ t : TaskFileMeta,
    (t ∈ l ↔ (FileEntry.task t ∈ files ∧ m t.name = true
        ∧ matchesLabelSelector t.labels sel = true)) := by
  intro files
  induction files with
  | nil =>
    intro l h t
    simp only [collectFromFiles, Except.ok.injEq] at h
    subst h
    simp
  | cons f rest ih =>
    intro l h t
    cases f with
    | badParse e => simp [collectFromFiles] at h
    | wrongKind =>
      have h' : collectFromFiles m sel rest = .ok l := h
      rw [ih l h' t]
      simp
    | task t' =>
      unfold collectFromFiles at h
      cases hrest : collectFromFiles m sel rest with
      | error e => rw [hrest] at h; exact absurd h (by simp)
      | ok l' =>
        rw [hrest] at h
        dsimp only at h
        by_cases hcond : (m t'.name && matchesLabelSelector t'.labels sel) = true
        · rw [if_pos hcond] at h
          simp only [Except.ok.injEq] at h
          subst h
          have hc := hcond
          rw [Bool.and_eq_true] at hc
          obtain ⟨hm', hsel'⟩ := hc
          simp only [List.mem_cons, FileEntry.task.injEq, ih l' hrest t]
          constructor
          · rintro (rfl | ⟨hmem, hm, hsel⟩)
            · exact ⟨Or.inl rfl, hm', hsel'⟩
            · exact ⟨Or.inr hmem, hm, hsel⟩
          · rintro ⟨heq | hmem', hm, hsel⟩
            · exact Or.inl heq
            · exact Or.inr ⟨hmem', hm, hsel⟩
        · rw [if_neg hcond] at h
          simp only [Except.ok.injEq] at h
          subst h
          rw [ih l' hrest t]
          simp only [List.mem_cons, FileEntry.task.injEq]
          constructor
          · rintro ⟨hmem, hm, hsel⟩
            exact ⟨Or.inr hmem, hm, hsel⟩
          · rintro ⟨heq | hmem', hm, hsel⟩
            · subst heq
              exact absurd (by rw [Bool.and_eq_true]; exact ⟨hm, hsel⟩) hcond
            · exact ⟨hmem', hm, hsel⟩

theorem mem_collectTaskConfigs (mb : String → Bool) :
    ∀ (tsets : List TaskSetModel) (l : List TaskFileMeta),
    collectTaskConfigs mb tsets = .ok l → ∀ t : TaskFileMeta,
    (t ∈ l ↔ ∃ ts, ts ∈ tsets ∧ FileEntry.task t ∈ ts.files
        ∧ mb t.name = true
        ∧ matchesLabelSelector t.labels ts.selector = true) := by
  intro tsets
  induction tsets with
  | nil =>
    intro l h t
    simp only [collectTaskConfigs, Except.ok.injEq] at h
    subst h
    simp
  | cons ts rest ih =>
    intro l h t
    unfold collectTaskConfigs at h
    cases h1 : collectFromFiles mb ts.selector ts.files with
    | error e => rw [h1] at h; exact absurd h (by simp)
    | ok l1 =>
      rw [h1] at h
      cases h2 : collectTaskConfigs mb rest with
      | error e => rw [h2] at h; exact absurd h (by simp)
      | ok l2 =>
        rw [h2] at h
        simp only [Except.ok.injEq] at h
        subst h
        rw [List.mem_append, mem_collectFromFiles mb ts.selector ts.files l1 h1 t,
          ih l2 h2 t]
        constructor
        · rintro (⟨hf, hm, hsel⟩ | ⟨ts', hts', hf, hm, hsel⟩)
          · exact ⟨ts, List.mem_cons_self _ _, hf, hm, hsel⟩
          · exact ⟨ts', List.mem_cons_of_mem _ hts', hf, hm, hsel⟩
        · rintro ⟨ts', hts', hf, hm, hsel⟩
          rcases List.mem_cons.mp hts' with rfl | hts''
          · exact Or.inl ⟨hf, hm, hsel⟩
          · exact Or.inr ⟨ts', hts'', hf, hm, hsel⟩

/-- Counterexample for C7 as stated: with an empty caller pattern (which the
claim says matches every task) and an empty label selector (satisfied by
every task), a discovered task whose name is empty is nevertheless excluded:
the runner replaces the empty pattern by the regexp ".", which matches no
empty string. The `compile` model agrees with Go's regexp engine on the only
pattern exercised, ".". -/
theorem taskFilter_counterexample :
    discoverTasks (fun p s => if p = "." then dotMatch s else false) ""
        [⟨[FileEntry.task ⟨"", []⟩], []⟩] = .ok []
    ∧ matchesLabelSelector ([] : List (String × String)) [] = true
    ∧ (fun s => if "." = "." then dotMatch s else false) = dotMatch := by
  refine ⟨rfl, rfl, ?_⟩
  funext s
  simp

/-- Claim C7 (amended): a discovered task is included iff its name matches
the compiled pattern and every key/value pair of the task-set's selector is
present with an equal value in its labels, where an empty caller pattern is
first replaced by the pattern "." — so an empty pattern matches exactly the
tasks whose name contains at least one non-newline character (every
conventionally named task, but not a task with an empty name). -/
theorem taskFilter_spec (compile : String → String → Bool) (pattern : String)
    (tsets : List TaskSetModel) (l : List TaskFileMeta)
    (hok : discoverTasks compile pattern tsets = .ok l) (t : TaskFileMeta) :
    (t ∈ l ↔ ∃ ts, ts ∈ tsets ∧ FileEntry.task t ∈ ts.files
        ∧ compile (effectivePattern pattern) t.name = true
        ∧ matchesLabelSelector t.labels ts.selector = true)
    ∧ (pattern = "" → compile "." = dotMatch →
        (t ∈ l ↔ ∃ ts, ts ∈ tsets ∧ FileEntry.task t ∈ ts.files
            ∧ dotMatch t.name = true
            ∧ matchesLabelSelector t.labels ts.selector = true)) := by
  have hmain := mem_collectTaskConfigs (compile (effectivePattern pattern))
    tsets l hok t
  refine ⟨hmain, ?_⟩
  intro hp hdot
  subst hp
  rw [show effectivePattern "" = "." from rfl] at hmain
  rw [hdot] at hmain
  exact hmain

/-- Witness for C7 at a concrete discovery: the empty pattern together with
a selector `suite=k8s` keeps exactly the conventionally named task carrying
that label. -/
theorem taskFilter_spec_witness :
    ((⟨"taskA", [("suite", "k8s")]⟩ : TaskFileMeta) ∈
        [(⟨"taskA", [("suite", "k8s")]⟩ : TaskFileMeta)] ↔
      ∃ ts, ts ∈ [(⟨[FileEntry.task ⟨"taskA", [("suite", "k8s")]⟩],
            [("suite", "k8s")]⟩ : TaskSetModel)]
        ∧ FileEntry.task ⟨"taskA", [("suite", "k8s")]⟩ ∈ ts.files
        ∧ (fun p s => if p = "." then dotMatch s else false)
            (effectivePattern "") "taskA" = true
        ∧ matchesLabelSelector [("suite", "k8s")] ts.selector = true) :=
  (taskFilter_spec (fun p s => if p = "." then dotMatch s else false) ""
    [⟨[FileEntry.task ⟨"taskA", [("suite", "k8s")]⟩], [("suite", "k8s")]⟩]
    [⟨"taskA", [("suite", "k8s")]⟩] rfl ⟨"taskA", [("suite", "k8s")]⟩).1

/-! ## C1: result ordering -/

theorem writeSlot_length (tasks : List (TaskMeta × TaskEnv))
    (slots : List (Option EvalResult)) (i : Nat) :
    (writeSlot tasks slots i).length = slots.length := by
  unfold writeSlot
  cases tasks[i]? <;> simp

theorem foldl_writeSlot_getElem (tasks : List (TaskMeta × TaskEnv)) :
    ∀ (order : List Nat) (slots : List (Option EvalResult)),
    slots.length = tasks.length → ∀ j : Nat,
    (order.foldl (writeSlot tasks) slots)[j]? =
      (if j ∈ order ∧ j < tasks.length
       then tasks[j]?.map (fun p => some (runTask p.1 p.2))
       else slots[j]?) := by
  intro order
  induction order with
  | nil =>
    intro slots _ j
    simp
  | cons i rest ih =>
    intro slots hlen j
    rw [List.foldl_cons]
    rw [ih (writeSlot tasks slots i) (by rw [writeSlot_length]; exact hlen) j]
    by_cases hjr : j ∈ rest ∧ j < tasks.length
    · rw [if_pos hjr, if_pos ⟨List.mem_cons_of_mem _ hjr.1, hjr.2⟩]
    · rw [if_neg hjr]
      by_cases hji : j = i
      · subst hji
        by_cases hjn : j < tasks.length
        · rw [if_pos ⟨List.mem_cons_self _ _, hjn⟩]
          obtain ⟨p, hp⟩ : ∃ p, tasks[j]? = some p := by
            rw [List.getElem?_eq_getElem hjn]
            exact ⟨_, rfl⟩
          unfold writeSlot
          rw [hp, List.getElem?_set_eq_of_lt _ (by rw [hlen]; exact hjn)]
          rfl
        · rw [if_neg (fun hc => hjn hc.2)]
          unfold writeSlot
          rw [List.getElem?_eq_none (le_of_not_lt hjn)]
      · rw [if_neg (fun hc => by
          rcases List.mem_cons.mp hc.1 with h | h
          · exact hji h
          · exact hjr ⟨h, hc.2⟩)]
        unfold writeSlot
        cases tasks[i]? with
        | none => rfl
        | some p => rw [List.getElem?_set_ne (fun h => hji h.symm)]

/-- Claim C1: for every discovered task list and every order in which the
workers complete (any permutation of the task positions), the assembled
result slice is exactly the per-task results in the original discovery
order — completion order never changes result order. -/
theorem results_preserve_order (tasks : List (TaskMeta × TaskEnv))
    (order : List Nat) (hperm : order.Perm (List.range tasks.length)) :
    runParallel tasks order = tasks.map (fun p => some (runTask p.1 p.2)) := by
  have hlen0 : (List.replicate tasks.length (none : Option EvalResult)).length
      = tasks.length := by simp
  rw [List.ext_get?_iff]
  intro n
  rw [List.get?_eq_getElem?, List.get?_eq_getElem?]
  unfold runParallel
  rw [foldl_writeSlot_getElem tasks order _ hlen0 n]
  have hmem : n ∈ order ↔ n < tasks.length := by
    rw [hperm.mem_iff, List.mem_range]
  by_cases hn : n < tasks.length
  · rw [if_pos ⟨hmem.mpr hn, hn⟩, List.getElem?_map]
  · rw [if_neg (fun hc => hn hc.2),
      List.getElem?_eq_none (by simpa using le_of_not_lt hn),
      List.getElem?_eq_none (by simpa using le_of_not_lt hn)]

/-- Witness for C1: a two-task batch whose second task completes first is
still assembled in discovery order. -/
theorem results_preserve_order_witness :
    runParallel
      [(⟨"a", "pa", "easy"⟩, ⟨none, none, none, [], ⟨none, "outA"⟩, [], []⟩),
       (⟨"b", "pb", "hard"⟩, ⟨none, none, none, [], ⟨none, "outB"⟩, [], []⟩)]
      [1, 0] =
    [(⟨"a", "pa", "easy"⟩, (⟨none, none, none, [], ⟨none, "outA"⟩, [], []⟩ : TaskEnv)),
     (⟨"b", "pb", "hard"⟩, ⟨none, none, none, [], ⟨none, "outB"⟩, [], []⟩)].map
      (fun p => some (runTask p.1 p.2)) :=
  results_preserve_order
    [(⟨"a", "pa", "easy"⟩, ⟨none, none, none, [], ⟨none, "outA"⟩, [], []⟩),
     (⟨"b", "pb", "hard"⟩, ⟨none, none, none, [], ⟨none, "outB"⟩, [], []⟩)]
    [1, 0] (by decide)

/-! ## C3: bounded concurrency -/

/-- Claim C3: for caller parallelism `p` (p ≤ 0 normalized to 1), every
scheduler state reachable from `n` discovered tasks has at most
`normalizeParallelism p` tasks holding worker slots — the counting
semaphore bound is an invariant; moreover every transition either leaves a
task's phase entry untouched, starts a task in its first phase, or advances
a task by exactly one phase in the fixed four-phase order, so each task's
phases run strictly sequentially. -/
theorem bounded_parallelism (p : Int) (n : Nat) (s : SchedState)
    (h : SchedReachable (normalizeParallelism p) n s) :
    s.active.length ≤ normalizeParallelism p
    ∧ ∀ s', SchedStep (normalizeParallelism p) s s' →
        ∀ i ph', (i, ph') ∈ s'.active →
          (i, ph') ∈ s.active ∨ ph' = TaskPhase.setupPhase
          ∨ ∃ ph, (i, ph) ∈ s.active ∧ TaskPhase.next ph = some ph' := by
  constructor
  · induction h with
    | init => simp
    | step hr hs ih =>
      cases hs with
      | start i rest act fin hlt =>
        simp only [List.length_cons]
        exact hlt
      | advance pre post i ph ph' pend fin hnext =>
        simp only [List.length_append, List.length_cons] at ih ⊢
        exact ih
      | finish pre post i pend fin =>
        simp only [List.length_append, List.length_cons] at ih ⊢
        omega
  · intro s' hs i ph' hmem
    cases hs with
    | start i0 rest act fin hlt =>
      rcases List.mem_cons.mp hmem with heq | hmem'
      · injection heq with h1 h2
        exact Or.inr (Or.inl h2)
      · exact Or.inl hmem'
    | advance pre post i0 ph0 ph0' pend fin hnext =>
      rcases List.mem_append.mp hmem with hpre | hrest
      · exact Or.inl (List.mem_append.mpr (Or.inl hpre))
      · rcases List.mem_cons.mp hrest with heq | hpost
        · injection heq with h1 h2
          subst h1
          subst h2
          exact Or.inr (Or.inr ⟨ph0,
            List.mem_append.mpr (Or.inr (List.mem_cons_self _ _)), hnext⟩)
        · exact Or.inl (List.mem_append.mpr (Or.inr (List.mem_cons_of_mem _ hpost)))
    | finish pre post i0 pend fin =>
      rcases List.mem_append.mp hmem with hpre | hpost
      · exact Or.inl (List.mem_append.mpr (Or.inl hpre))
      · exact Or.inl (List.mem_append.mpr (Or.inr (List.mem_cons_of_mem _ hpost)))

/-- Witness for C3: with parallelism 2 and 3 discovered tasks, the state
reached after starting the first task respects the semaphore bound. -/
theorem bounded_parallelism_witness :
    (⟨[1, 2], [(0, TaskPhase.setupPhase)], []⟩ : SchedState).active.length ≤
      normalizeParallelism 2 :=
  (bounded_parallelism 2 3 ⟨[1, 2], [(0, TaskPhase.setupPhase)], []⟩
    (SchedReachable.step SchedReachable.init
      (SchedStep.start 0 [1, 2] [] [] (by decide)))).1

end MCPCheck
